import Mathlib

/-!
Shallow embedding of the title-game server (`src/index.js`): a socket
server coordinating rooms of players who submit titles, vote, discard and
replenish cards, and advance turns through a readiness barrier.

JavaScript objects used as string-keyed maps (`room.votes`, `room.hands`,
the global `rooms`) are embedded as association lists with unique keys:
`delete obj[k]` is `assocErase`, `obj[k] = v` is `assocSet` (erase then
append — JS object keys are unique), `obj[k]` is `assocLookup`. Arrays
are Lean lists; `splice(0, n)` is `take`/`drop`; `shift()` takes the head.
The randomness of `createNewRoom`'s shuffle is factored out: room-creating
operations receive the already-shuffled deck as an argument, and trace
level theorems hypothesise it is a permutation of the card catalog.
Socket emissions are reified as an output list (`Out`); the linear scan
resolving a player's socket in the ready-for-next-turn handler is
abstracted as a `resolve : PlayerName → Option ConnId` oracle carried by
the event, which only affects outputs, never room state.
-/

namespace TitleGame

abbrev Card := Nat
abbrev PlayerName := String
abbrev ConnId := Nat
abbrev RoomId := String

/-- One entry of `room.submissions` as pushed by the submit-title handler. -/
structure Submission where
  playerName : PlayerName
  title : String
  turn : Nat
  votes : Nat
  usedCards : List Card
deriving Repr, DecidableEq

/-- The room object of `createNewRoom`, plus the `_turnProcessed` field the
ready-for-next-turn handler attaches (`none` while still undefined). -/
structure Room where
  players : List PlayerName
  votes : List (PlayerName × Nat)
  votedPlayers : List PlayerName
  readyPlayers : List PlayerName
  turn : Nat
  submissions : List Submission
  deck : List Card
  hands : List (PlayerName × List Card)
  turnProcessed : Option Nat
deriving Repr, DecidableEq

/-- Lookup `obj[k]` on a JS object embedded as an association list. -/
def assocLookup {α : Type} : List (String × α) → String → Option α
  | [], _ => none
  | (k', v) :: rest, k => if k' = k then some v else assocLookup rest k

/-- Deletion `delete obj[k]`. -/
def assocErase {α : Type} (m : List (String × α)) (k : String) : List (String × α) :=
  m.filter (fun e => e.1 != k)

/-- Assignment `obj[k] = v`: JS object keys are unique, so setting is erase-then-append. -/
def assocSet {α : Type} (m : List (String × α)) (k : String) (v : α) : List (String × α) :=
  assocErase m k ++ [(k, v)]

/-- Payloads of emitted socket events. -/
inductive Payload where
  | hand (h : List Card)
  | roster (ps : List PlayerName)
  | submitted (p : PlayerName) (title : String)
  | name (p : PlayerName)
  | num (n : Nat)
  | empty
deriving Repr, DecidableEq

/-- An emission: `io.to(socketId).emit` / `socket.emit` is `send`,
`io.to(roomId).emit` is `broadcast`. -/
inductive Out where
  | send (conn : ConnId) (event : String) (payload : Payload)
  | broadcast (roomId : RoomId) (event : String) (payload : Payload)
deriving Repr, DecidableEq

/-- The `createNewRoom` template, with the shuffled copy of the catalog supplied. -/
def createNewRoom (shuffledDeck : List Card) : Room :=
  { players := [], votes := [], votedPlayers := [], readyPlayers := [],
    turn := 1, submissions := [], deck := shuffledDeck, hands := [],
    turnProcessed := none }

/-- Body of `removePlayerFromRoom` once the room is known to exist. -/
def removePlayerCore (room : Room) (playerName : PlayerName) : Room :=
  { room with
    players := room.players.filter (fun n => n != playerName),
    votedPlayers := room.votedPlayers.filter (fun n => n != playerName),
    readyPlayers := room.readyPlayers.filter (fun n => n != playerName),
    votes := assocErase room.votes playerName,
    hands := assocErase room.hands playerName,
    submissions := room.submissions.filter (fun t => t.playerName != playerName) }

/-- The `drawCards(deck, count)` helper: `deck.splice(0, count)` returns the removed
prefix and leaves the rest in the deck. -/
def drawCards (deck : List Card) (count : Nat) : List Card × List Card :=
  (deck.take count, deck.drop count)

/-- The join-room handler's per-room work: remove any previous occupant of
the name, push the name, draw a 7-card hand, emit deal-hand to the joiner
and broadcast the roster. -/
def joinRoomCore (roomId : RoomId) (room : Room) (playerName : PlayerName)
    (conn : ConnId) : Room × List Out :=
  let r1 := removePlayerCore room playerName
  let r2 := { r1 with players := r1.players ++ [playerName] }
  let hand := (drawCards r2.deck 7).1
  let deck' := (drawCards r2.deck 7).2
  let r3 := { r2 with deck := deck', hands := assocSet r2.hands playerName hand }
  (r3, [Out.send conn "deal-hand" (Payload.hand hand),
        Out.broadcast roomId "players-in-room" (Payload.roster r3.players)])

/-- The submit-title guard: `Array.isArray(usedCards) && usedCards.length === 2`
(`none` embeds a non-array value). -/
def isValidUsedCards : Option (List Card) → Bool
  | some cards => cards.length == 2
  | none => false

/-- The submit-title handler's per-room work. -/
def submitTitleCore (roomId : RoomId) (room : Room) (playerName : PlayerName)
    (title : String) (usedCards : Option (List Card)) : Room × List Out :=
  if isValidUsedCards usedCards then
    let cards := usedCards.getD []
    let subs := room.submissions.filter (fun t => t.playerName != playerName)
    ({ room with submissions :=
        subs ++ [{ playerName := playerName, title := title, turn := room.turn,
                   votes := 0, usedCards := cards }] },
     [Out.broadcast roomId "title-submitted" (Payload.submitted playerName title)])
  else
    (room, [])

/-- The `room.submissions.find(t => t.playerName === targetName)` call followed by the
in-place vote bump: increment the first matching submission's counter. -/
def bumpFirstSubmission : List Submission → PlayerName → List Submission
  | [], _ => []
  | s :: rest, target =>
      if s.playerName == target then { s with votes := s.votes + 1 } :: rest
      else s :: bumpFirstSubmission rest target

/-- The vote handler's per-room work: tally for the target, push the voter
onto `votedPlayers` (unconditionally, duplicates included), bump the
target's submission, and broadcast all-voted when the `votedPlayers` list
is as long as the roster. -/
def voteCore (roomId : RoomId) (room : Room) (playerName targetName : PlayerName) :
    Room × List Out :=
  let tally := (assocLookup room.votes targetName).getD 0
  let room' := { room with
    votes := assocSet room.votes targetName (tally + 1),
    votedPlayers := room.votedPlayers ++ [playerName],
    submissions := bumpFirstSubmission room.submissions targetName }
  let outs :=
    if room'.votedPlayers.length == room'.players.length then
      [Out.broadcast roomId "all-voted" Payload.empty]
    else []
  (room', outs)

/-- The discard-card handler's per-room work: no-op unless the hand exists
and contains the card; the hand loses every instance of the card *before*
the empty-deck check, so an empty deck leaves the hand shortened with no
reply; otherwise the deck's front card is appended and the updated hand is
sent to the requesting connection only. -/
def discardCore (room : Room) (playerName : PlayerName) (card : Card)
    (conn : ConnId) : Room × List Out :=
  match assocLookup room.hands playerName with
  | none => (room, [])
  | some playerHand =>
    if card ∈ playerHand then
      let newHand := playerHand.filter (fun c => c != card)
      let r1 := { room with hands := assocSet room.hands playerName newHand }
      match r1.deck with
      | [] => (r1, [])
      | newCard :: rest =>
        let finalHand := newHand ++ [newCard]
        let r2 := { r1 with deck := rest, hands := assocSet r1.hands playerName finalHand }
        (r2, [Out.send conn "deal-hand" (Payload.hand finalHand)])
    else (room, [])

/-- The request-hand handler's per-room work: emit the recorded hand to the
requester when one is recorded (`room.hands[playerName]` truthy: any
recorded list, empty arrays being truthy in JS), no state change. -/
def requestHandCore (room : Room) (playerName : PlayerName) (conn : ConnId) :
    List Out :=
  match assocLookup room.hands playerName with
  | some h => [Out.send conn "deal-hand" (Payload.hand h)]
  | none => []

/-- The advancement block's per-submission loop: drop the used cards from
the submitter's hand, draw back up to 7, store the hand, and send it when
the player's socket resolves. -/
def replenishLoop (resolve : PlayerName → Option ConnId) :
    List Submission → List (PlayerName × List Card) → List Card →
    List (PlayerName × List Card) × List Card × List Out
  | [], hands, deck => (hands, deck, [])
  | sub :: rest, hands, deck =>
    let hand := (assocLookup hands sub.playerName).getD []
    let newHand := hand.filter (fun c => !(sub.usedCards.contains c))
    let needed := 7 - newHand.length
    let drawn := (drawCards deck needed).1
    let deck' := (drawCards deck needed).2
    let hands' := assocSet hands sub.playerName (newHand ++ drawn)
    let out := match resolve sub.playerName with
      | some conn => [Out.send conn "deal-hand" (Payload.hand (newHand ++ drawn))]
      | none => []
    let rec' := replenishLoop resolve rest hands' deck'
    (rec'.1, rec'.2.1, out ++ rec'.2.2)

/-- The ready-for-next-turn handler's `includes` check and push: an already
ready player leaves the list unchanged. -/
def readyPush (room : Room) (playerName : PlayerName) : Room :=
  if playerName ∈ room.readyPlayers then room
  else { room with readyPlayers := room.readyPlayers ++ [playerName] }

/-- Whether the ready-for-next-turn handler's advancement block runs: the
readiness list (after a non-member push) is as long as the roster and the
`_turnProcessed` guard differs from the current turn. -/
def readyAdvances (room : Room) (playerName : PlayerName) : Bool :=
  let r1 := readyPush room playerName
  r1.readyPlayers.length == r1.players.length && !(r1.turnProcessed == some r1.turn)

/-- The ready-for-next-turn handler's per-room work: push an unseen player
onto the readiness list (broadcasting player-ready-next), and when the
barrier fires and the `_turnProcessed` guard passes, run the advancement
block: replenish submitters' hands, bump the turn, clear the ephemeral
state, broadcast the new turn, and re-send every roster member's hand
where a socket resolves. -/
def readyCore (roomId : RoomId) (room : Room) (playerName : PlayerName)
    (resolve : PlayerName → Option ConnId) : Room × List Out :=
  let r1 := readyPush room playerName
  let outs1 :=
    if playerName ∈ room.readyPlayers then ([] : List Out)
    else [Out.broadcast roomId "player-ready-next" (Payload.name playerName)]
  if r1.readyPlayers.length == r1.players.length then
    if r1.turnProcessed == some r1.turn then (r1, outs1)
    else
      let r2 := { r1 with turnProcessed := some r1.turn }
      let rep := replenishLoop resolve r2.submissions r2.hands r2.deck
      let outs2 := rep.2.2
      let r3 := { r2 with
        hands := rep.1, deck := rep.2.1, turn := r2.turn + 1, votes := [],
        votedPlayers := [], readyPlayers := [], submissions := [] }
      let outs4 := r3.players.filterMap (fun p =>
        (resolve p).map (fun conn =>
          Out.send conn "deal-hand" (Payload.hand ((assocLookup r3.hands p).getD []))))
      (r3, outs1 ++ outs2 ++ [Out.broadcast roomId "next-turn" (Payload.num r3.turn)] ++ outs4)
  else (r1, outs1)

/-- The process-wide `rooms` object. -/
structure ServerState where
  rooms : List (RoomId × Room)
deriving Repr, DecidableEq

/-- The initial server state: `const rooms = {}`. -/
def initialState : ServerState := { rooms := [] }

/-- The join-room handler: create the room from the shuffled deck when
absent, then run the per-room join. -/
def joinRoomHandler (st : ServerState) (roomId : RoomId) (playerName : PlayerName)
    (conn : ConnId) (shuffled : List Card) : ServerState × List Out :=
  let room := match assocLookup st.rooms roomId with
    | some r => r
    | none => createNewRoom shuffled
  ({ rooms := assocSet st.rooms roomId (joinRoomCore roomId room playerName conn).1 },
   (joinRoomCore roomId room playerName conn).2)

/-- The submit-title handler: silent no-op when the room is absent. -/
def submitTitleHandler (st : ServerState) (roomId : RoomId) (playerName : PlayerName)
    (title : String) (usedCards : Option (List Card)) : ServerState × List Out :=
  match assocLookup st.rooms roomId with
  | none => (st, [])
  | some room =>
    ({ rooms := assocSet st.rooms roomId
        (submitTitleCore roomId room playerName title usedCards).1 },
     (submitTitleCore roomId room playerName title usedCards).2)

/-- The vote handler: silent no-op when the room is absent. -/
def voteHandler (st : ServerState) (roomId : RoomId) (playerName targetName : PlayerName) :
    ServerState × List Out :=
  match assocLookup st.rooms roomId with
  | none => (st, [])
  | some room =>
    ({ rooms := assocSet st.rooms roomId (voteCore roomId room playerName targetName).1 },
     (voteCore roomId room playerName targetName).2)

/-- The discard-card handler: silent no-op when the room is absent. -/
def discardHandler (st : ServerState) (roomId : RoomId) (playerName : PlayerName)
    (card : Card) (conn : ConnId) : ServerState × List Out :=
  match assocLookup st.rooms roomId with
  | none => (st, [])
  | some room =>
    ({ rooms := assocSet st.rooms roomId (discardCore room playerName card conn).1 },
     (discardCore room playerName card conn).2)

/-- The request-hand handler: read-only; silent no-op when the room is absent. -/
def requestHandHandler (st : ServerState) (roomId : RoomId) (playerName : PlayerName)
    (conn : ConnId) : ServerState × List Out :=
  match assocLookup st.rooms roomId with
  | none => (st, [])
  | some room => (st, requestHandCore room playerName conn)

/-- The ready-for-next-turn handler: silent no-op when the room is absent. -/
def readyHandler (st : ServerState) (roomId : RoomId) (playerName : PlayerName)
    (resolve : PlayerName → Option ConnId) : ServerState × List Out :=
  match assocLookup st.rooms roomId with
  | none => (st, [])
  | some room =>
    ({ rooms := assocSet st.rooms roomId (readyCore roomId room playerName resolve).1 },
     (readyCore roomId room playerName resolve).2)

/-- The `removePlayerFromRoom` function: no-op when the room is absent. -/
def removePlayerHandler (st : ServerState) (roomId : RoomId) (playerName : PlayerName) :
    ServerState :=
  match assocLookup st.rooms roomId with
  | none => st
  | some room => { rooms := assocSet st.rooms roomId (removePlayerCore room playerName) }

/-- The disconnect handler: remove the bound player (when a binding exists)
and broadcast the possibly-empty roster. -/
def disconnectHandler (st : ServerState) (data : Option (RoomId × PlayerName)) :
    ServerState × List Out :=
  match data with
  | none => (st, [])
  | some (roomId, playerName) =>
    let st' := removePlayerHandler st roomId playerName
    let roster := match assocLookup st'.rooms roomId with
      | some r => r.players
      | none => []
    (st', [Out.broadcast roomId "players-in-room" (Payload.roster roster)])

/-- One inbound client event. A join carries the shuffled deck the room
would be created from; a ready event carries the socket-resolution oracle;
a disconnect carries the connection's session binding. -/
inductive Event where
  | join (roomId : RoomId) (playerName : PlayerName) (conn : ConnId)
      (shuffled : List Card)
  | submitTitle (roomId : RoomId) (playerName : PlayerName) (title : String)
      (usedCards : Option (List Card))
  | vote (roomId : RoomId) (playerName targetName : PlayerName)
  | discard (roomId : RoomId) (playerName : PlayerName) (card : Card) (conn : ConnId)
  | requestHand (roomId : RoomId) (playerName : PlayerName) (conn : ConnId)
  | ready (roomId : RoomId) (playerName : PlayerName)
      (resolve : PlayerName → Option ConnId)
  | disconnect (data : Option (RoomId × PlayerName))

/-- Dispatch one event to its handler. -/
def step (st : ServerState) : Event → ServerState × List Out
  | Event.join roomId playerName conn shuffled =>
      joinRoomHandler st roomId playerName conn shuffled
  | Event.submitTitle roomId playerName title usedCards =>
      submitTitleHandler st roomId playerName title usedCards
  | Event.vote roomId playerName targetName =>
      voteHandler st roomId playerName targetName
  | Event.discard roomId playerName card conn =>
      discardHandler st roomId playerName card conn
  | Event.requestHand roomId playerName conn =>
      requestHandHandler st roomId playerName conn
  | Event.ready roomId playerName resolve =>
      readyHandler st roomId playerName resolve
  | Event.disconnect data => disconnectHandler st data

/-- Run a sequence of events, keeping only the state. -/
def runEvents (st : ServerState) : List Event → ServerState
  | [] => st
  | e :: rest => runEvents (step st e).1 rest

/-- The turn counter of a room, `0` when the room does not exist (rooms are
created with turn `1`, so `0` never occurs for a live room). -/
def turnAt (st : ServerState) (roomId : RoomId) : Nat :=
  match assocLookup st.rooms roomId with
  | some r => r.turn
  | none => 0

/-- Whether handling the event in the given state runs the advancement
block of the given room. -/
def advancesAt (st : ServerState) (roomId : RoomId) : Event → Bool
  | Event.ready roomId' playerName _ =>
      roomId' == roomId &&
      (match assocLookup st.rooms roomId' with
       | some room => readyAdvances room playerName
       | none => false)
  | _ => false

/-- How many events of the list run the advancement block of the room while
its turn counter equals `turnValue`. -/
def countAdvances (st : ServerState) (roomId : RoomId) (turnValue : Nat) :
    List Event → Nat
  | [] => 0
  | e :: rest =>
      (if advancesAt st roomId e = true ∧ turnAt st roomId = turnValue then 1 else 0)
      + countAdvances (step st e).1 roomId turnValue rest

/-- The multiset of all cards held in players' hands. -/
def handsCards (hands : List (PlayerName × List Card)) : Multiset Card :=
  (hands.map fun e => (e.2 : Multiset Card)).sum

/-- The multiset union of all players' hands and the deck of a room. -/
def roomCards (r : Room) : Multiset Card :=
  handsCards r.hands + (r.deck : Multiset Card)

/-- Validity of the randomness oracle carried by a join event: the deck a
room would be created from is a permutation of the card catalog, as
produced by `[...allCards].sort(() => Math.random() - 0.5)`. -/
def eventOk (allCards : List Card) : Event → Prop
  | Event.join _ _ _ shuffled => shuffled.Perm allCards
  | _ => True

/-- Modelled from the spec: draws the replenish loop would fail to make
because the deck ran short, mirroring `replenishLoop` step by step. -/
def replenishShortfall : List Submission → List (PlayerName × List Card) →
    List Card → Nat
  | [], _, _ => 0
  | sub :: rest, hands, deck =>
    let hand := (assocLookup hands sub.playerName).getD []
    let newHand := hand.filter (fun c => !(sub.usedCards.contains c))
    let needed := 7 - newHand.length
    let drawn := (drawCards deck needed).1
    let deck' := (drawCards deck needed).2
    let hands' := assocSet hands sub.playerName (newHand ++ drawn)
    (needed - drawn.length) + replenishShortfall rest hands' deck'

/-- Modelled from the spec: the number of "cards already
discarded-without-replacement due to deck exhaustion" charged to one
event — hand cards a discard drops when the deck is empty, and draws the
advancement replenish loop cannot honour. All other events never discard
due to exhaustion. -/
def specExhaustionLoss (st : ServerState) : Event → Nat
  | Event.discard roomId playerName card _ =>
    (match assocLookup st.rooms roomId with
     | none => 0
     | some room =>
       match assocLookup room.hands playerName with
       | none => 0
       | some hand =>
         if card ∈ hand ∧ room.deck = [] then
           (hand.filter (fun c => c == card)).length
         else 0)
  | Event.ready roomId playerName _ =>
    (match assocLookup st.rooms roomId with
     | none => 0
     | some room =>
       if readyAdvances room playerName then
         replenishShortfall room.submissions room.hands room.deck
       else 0)
  | _ => 0

/-- Total exhaustion loss accumulated along a trace. -/
def traceExhaustionLoss (st : ServerState) : List Event → Nat
  | [] => 0
  | e :: rest => specExhaustionLoss st e + traceExhaustionLoss (step st e).1 rest

/-! Concrete fixtures used by counterexamples and witnesses. -/

/-- A two-player room in its initial collecting phase. -/
def twoPlayerRoom : Room :=
  { players := ["A", "B"], votes := [], votedPlayers := [], readyPlayers := [],
    turn := 1, submissions := [], deck := [], hands := [], turnProcessed := none }

/-- A room whose player "A" holds two copies of card `5`. -/
def dupHandRoom : Room :=
  { players := ["A"], votes := [], votedPlayers := [], readyPlayers := [],
    turn := 1, submissions := [], deck := [1, 2],
    hands := [("A", [5, 5, 9])], turnProcessed := none }

/-- A room with an exhausted deck and a two-card hand for "A". -/
def emptyDeckRoom : Room :=
  { players := ["A"], votes := [], votedPlayers := [], readyPlayers := [],
    turn := 1, submissions := [], deck := [],
    hands := [("A", [3, 4])], turnProcessed := none }

/-- A one-player room on the verge of its readiness barrier, with one
submission recorded. -/
def barrierRoom : Room :=
  { players := ["A"], votes := [("A", 1)], votedPlayers := ["A"],
    readyPlayers := [], turn := 1,
    submissions := [{ playerName := "A", title := "T", turn := 1, votes := 1,
                      usedCards := [1, 2] }],
    deck := [8, 9], hands := [("A", [1, 2, 3, 4, 5, 6, 7])],
    turnProcessed := none }

/-- A 20-card catalog. -/
def catalog20 : List Card := List.range 20

/-- The same player joining the same room twice with a full catalog deck. -/
def rejoinEvents : List Event :=
  [Event.join "R" "A" 0 catalog20, Event.join "R" "A" 0 catalog20]

/-- The room produced by the double join. -/
def roomAfterRejoin : Room :=
  (assocLookup (runEvents initialState rejoinEvents).rooms "R").getD
    (createNewRoom [])

/-- Every live room's card multiset (hands plus deck) is bounded by the
catalog's multiset. -/
def serverInv (catalog : List Card) (st : ServerState) : Prop :=
  ∀ R room, assocLookup st.rooms R = some room →
    roomCards room ≤ (catalog : Multiset Card)

/-! Association-list lemmas for the JS-object embedding. -/

theorem assocLookup_append {α : Type} (m₁ m₂ : List (String × α)) (k : String) :
    assocLookup (m₁ ++ m₂) k =
      match assocLookup m₁ k with
      | some v => some v
      | none => assocLookup m₂ k := by
  induction m₁ with
  | nil => rfl
  | cons e rest ih =>
    obtain ⟨k', v⟩ := e
    by_cases h : k' = k
    · simp [assocLookup, h]
    · simpa [assocLookup, h] using ih

theorem assocLookup_assocErase_self {α : Type} (m : List (String × α)) (k : String) :
    assocLookup (assocErase m k) k = none := by
  induction m with
  | nil => rfl
  | cons e rest ih =>
    obtain ⟨k', v⟩ := e
    by_cases h : k' = k
    · simpa [assocErase, List.filter_cons, h] using ih
    · simpa [assocErase, List.filter_cons, h, assocLookup] using ih

theorem assocLookup_assocErase_ne {α : Type} (m : List (String × α)) (k k' : String)
    (h : k ≠ k') : assocLookup (assocErase m k) k' = assocLookup m k' := by
  induction m with
  | nil => rfl
  | cons e rest ih =>
    obtain ⟨k₀, v⟩ := e
    by_cases hk : k₀ = k
    · subst hk
      simpa [assocErase, List.filter_cons, assocLookup, h] using ih
    · by_cases hk' : k₀ = k'
      · subst hk'
        simp [assocErase, List.filter_cons, Ne.symm h, assocLookup]
      · simpa [assocErase, List.filter_cons, hk, assocLookup, hk'] using ih

theorem assocLookup_assocSet_self {α : Type} (m : List (String × α)) (k : String) (v : α) :
    assocLookup (assocSet m k v) k = some v := by
  simp [assocSet, assocLookup_append, assocLookup_assocErase_self, assocLookup]

theorem assocLookup_assocSet_ne {α : Type} (m : List (String × α)) (k : String) (v : α)
    (k' : String) (h : k ≠ k') :
    assocLookup (assocSet m k v) k' = assocLookup m k' := by
  rw [assocSet, assocLookup_append, assocLookup_assocErase_ne m k k' h]
  cases hm : assocLookup m k' with
  | some w => rfl
  | none => simp [assocLookup, h]

theorem assocErase_assocErase {α : Type} (m : List (String × α)) (k : String) :
    assocErase (assocErase m k) k = assocErase m k := by
  simp [assocErase, List.filter_filter]

theorem assocErase_append {α : Type} (m₁ m₂ : List (String × α)) (k : String) :
    assocErase (m₁ ++ m₂) k = assocErase m₁ k ++ assocErase m₂ k := by
  simp [assocErase, List.filter_append]

theorem assocErase_assocSet_self {α : Type} (m : List (String × α)) (k : String) (v : α) :
    assocErase (assocSet m k v) k = assocErase m k := by
  simp [assocSet, assocErase_append, assocErase_assocErase, assocErase, List.filter_cons]

theorem assocSet_assocSet {α : Type} (m : List (String × α)) (k : String) (v w : α) :
    assocSet (assocSet m k v) k w = assocSet m k w := by
  simp only [assocSet]
  rw [assocErase_append, assocErase_assocErase]
  simp [assocErase, List.filter_cons]

theorem assocErase_filter_key {α : Type} (m : List (String × α)) (k : String) :
    (assocErase m k).filter (fun e => e.1 == k) = [] := by
  rw [List.filter_eq_nil_iff]
  intro e he
  rw [assocErase] at he
  have h1 : (e.1 != k) = true := (List.mem_filter.mp he).2
  simp at h1 ⊢
  exact h1

/-! Small facts about `readyPush`. -/

theorem readyPush_turn (room : Room) (p : PlayerName) :
    (readyPush room p).turn = room.turn := by
  rw [readyPush]; split <;> rfl

theorem readyPush_turnProcessed (room : Room) (p : PlayerName) :
    (readyPush room p).turnProcessed = room.turnProcessed := by
  rw [readyPush]; split <;> rfl

/-- The turn counter the ready-for-next-turn handler leaves behind:
bumped by one exactly when the advancement block runs. -/
theorem readyCore_turn (roomId : RoomId) (room : Room) (playerName : PlayerName)
    (resolve : PlayerName → Option ConnId) :
    (readyCore roomId room playerName resolve).1.turn =
      if readyAdvances room playerName = true then room.turn + 1 else room.turn := by
  simp only [readyCore, readyAdvances, Bool.and_eq_true, Bool.not_eq_true']
  cases hlen : ((readyPush room playerName).readyPlayers.length ==
      (readyPush room playerName).players.length) with
  | false => simp [hlen, readyPush_turn]
  | true =>
    cases hguard : ((readyPush room playerName).turnProcessed ==
        some (readyPush room playerName).turn) with
    | true => simp [hlen, hguard, readyPush_turn]
    | false => simp [hlen, hguard, readyPush_turn]

/-- C1: the all-voted broadcast is claimed to fire only once N distinct
players have voted. The code instead pushes every vote onto
`votedPlayers` and compares the list's length with the roster size, so in
a two-player room two votes from the same single player fire the
broadcast: a duplicate vote triggers it prematurely. -/
theorem C1_duplicate_vote_fires_all_voted :
    twoPlayerRoom.players.length = 2 ∧
    (voteCore "R" twoPlayerRoom "A" "B").2 = [] ∧
    (voteCore "R" (voteCore "R" twoPlayerRoom "A" "B").1 "A" "B").2
      = [Out.broadcast "R" "all-voted" Payload.empty] ∧
    ((voteCore "R" (voteCore "R" twoPlayerRoom "A" "B").1 "A" "B").1.votedPlayers.dedup).length
      = 1 := by
  decide

/-- C4: join is idempotent by player name: after a join (from any prior
room state, hence after any number of repeated joins) the roster holds
the name exactly once, exactly one hand entry is keyed by it, and the old
occupant's entries are gone from the voted and ready sets, the vote
tally, and the submissions. -/
theorem C4_join_idempotent_by_name (roomId : RoomId) (room : Room)
    (playerName : PlayerName) (conn : ConnId) :
    ((joinRoomCore roomId room playerName conn).1.players.count playerName = 1) ∧
    (((joinRoomCore roomId room playerName conn).1.hands.filter
        (fun e => e.1 == playerName)).length = 1) ∧
    playerName ∉ (joinRoomCore roomId room playerName conn).1.votedPlayers ∧
    playerName ∉ (joinRoomCore roomId room playerName conn).1.readyPlayers ∧
    assocLookup (joinRoomCore roomId room playerName conn).1.votes playerName = none ∧
    (∀ sub ∈ (joinRoomCore roomId room playerName conn).1.submissions,
        sub.playerName ≠ playerName) ∧
    (∀ n : Nat,
      ((fun r => (joinRoomCore roomId r playerName conn).1)^[n + 1] room).players.count
        playerName = 1) := by
  have key : ∀ r : Room,
      ((joinRoomCore roomId r playerName conn).1.players.count playerName = 1) := by
    intro r
    simp only [joinRoomCore, removePlayerCore, drawCards]
    rw [List.count_append]
    have hz : (r.players.filter (fun n => n != playerName)).count playerName = 0 := by
      rw [List.count_eq_zero]
      intro hmem
      have := (List.mem_filter.mp hmem).2
      simp at this
    simp [hz]
  refine ⟨key room, ?_, ?_, ?_, ?_, ?_, ?_⟩
  · simp only [joinRoomCore, removePlayerCore, drawCards, assocSet]
    rw [List.filter_append, assocErase_filter_key]
    simp
  · simp only [joinRoomCore, removePlayerCore, drawCards]
    intro hmem
    have := (List.mem_filter.mp hmem).2
    simp at this
  · simp only [joinRoomCore, removePlayerCore, drawCards]
    intro hmem
    have := (List.mem_filter.mp hmem).2
    simp at this
  · simp only [joinRoomCore, removePlayerCore, drawCards]
    exact assocLookup_assocErase_self _ _
  · simp only [joinRoomCore, removePlayerCore, drawCards]
    intro sub hmem
    have := (List.mem_filter.mp hmem).2
    simpa using this
  · intro n
    rw [Function.iterate_succ_apply']
    exact key _

/-- C5: submit-title with an invalid `usedCards` (not an array of exactly
two cards) changes nothing and emits nothing; with a valid one it
replaces any prior submission by the player with a fresh zero-vote
submission, leaving exactly one submission by that player, and only
broadcasts the title notification. -/
theorem C5_submit_title_validation (roomId : RoomId) (room : Room)
    (playerName : PlayerName) (title : String) (usedCards : Option (List Card)) :
    (isValidUsedCards usedCards = false →
        submitTitleCore roomId room playerName title usedCards = (room, [])) ∧
    (isValidUsedCards usedCards = true →
        submitTitleCore roomId room playerName title usedCards =
          ({ room with submissions :=
              room.submissions.filter (fun t => t.playerName != playerName)
                ++ [{ playerName := playerName, title := title, turn := room.turn,
                      votes := 0, usedCards := usedCards.getD [] }] },
           [Out.broadcast roomId "title-submitted"
              (Payload.submitted playerName title)]) ∧
        ((submitTitleCore roomId room playerName title usedCards).1.submissions.countP
            (fun t => t.playerName == playerName)) = 1) := by
  constructor
  · intro h
    simp [submitTitleCore, h]
  · intro h
    constructor
    · simp [submitTitleCore, h]
    · simp only [submitTitleCore, h, if_true]
      rw [List.countP_append]
      have hz : (room.submissions.filter (fun t => t.playerName != playerName)).countP
          (fun t => t.playerName == playerName) = 0 := by
        rw [List.countP_eq_zero]
        intro t ht
        have := (List.mem_filter.mp ht).2
        simpa using this
      simp [hz, List.countP_cons]

/-- C5 witness: a one-card submission is a complete no-op, and a valid
two-card submission leaves exactly one submission by the player. -/
theorem C5_submit_title_validation_witness :
    submitTitleCore "R" twoPlayerRoom "A" "T" (some [1]) = (twoPlayerRoom, []) ∧
    ((submitTitleCore "R" twoPlayerRoom "A" "T" (some [1, 2])).1.submissions.countP
        (fun t => t.playerName == "A")) = 1 :=
  ⟨(C5_submit_title_validation "R" twoPlayerRoom "A" "T" (some [1])).1 (by decide),
   ((C5_submit_title_validation "R" twoPlayerRoom "A" "T" (some [1, 2])).2 (by decide)).2⟩

/-- C7 counterexample: with the room live, the card in the hand and the
deck non-empty, the discard handler's `filter(c => c !== card)` removes
*every* instance of the card, not exactly one: a hand holding two copies
of card 5 ends with zero copies rather than one. -/
theorem C7_counterexample_removes_both_copies :
    assocLookup dupHandRoom.hands "A" = some [5, 5, 9] ∧
    5 ∈ [5, 5, 9] ∧ dupHandRoom.deck ≠ [] ∧
    ¬ (((assocLookup (discardCore dupHandRoom "A" 5 0).1.hands "A").getD []).count 5
        = [5, 5, 9].count 5 - 1) := by
  decide

/-- C7 (amended): when the room exists, the hand contains the card and the
deck is non-empty, discard-card removes every instance of the card from
the hand (exactly one when the hand holds a single copy), appends the
deck's front card, and sends the updated hand to the requesting
connection only — no broadcast. -/
theorem C7_discard_swaps_card (room : Room) (playerName : PlayerName) (card : Card)
    (conn : ConnId) (hand : List Card) (d : Card) (ds : List Card)
    (hh : assocLookup room.hands playerName = some hand)
    (hc : card ∈ hand) (hd : room.deck = d :: ds) :
    discardCore room playerName card conn =
      ({ room with
          deck := ds,
          hands := assocSet room.hands playerName
            (hand.filter (fun c => c != card) ++ [d]) },
       [Out.send conn "deal-hand"
          (Payload.hand (hand.filter (fun c => c != card) ++ [d]))]) := by
  simp only [discardCore, hh, hd, if_pos hc]
  rw [assocSet_assocSet]

/-- C7 witness: the amended behaviour at a concrete room. -/
theorem C7_discard_swaps_card_witness :
    discardCore dupHandRoom "A" 5 3 =
      ({ dupHandRoom with
          deck := [2],
          hands := assocSet dupHandRoom.hands "A"
            ([5, 5, 9].filter (fun c => c != 5) ++ [1]) },
       [Out.send 3 "deal-hand"
          (Payload.hand ([5, 5, 9].filter (fun c => c != 5) ++ [1]))]) :=
  C7_discard_swaps_card dupHandRoom "A" 5 3 [5, 5, 9] 1 [2]
    (by decide) (by decide) (by decide)

/-- C8 counterexample: the discard handler filters the card out of the
hand *before* the empty-deck check, so with an empty deck the hand does
shrink: the claimed "decreases by 0 / hand unchanged" is false, though
indeed no deal-hand is sent. -/
theorem C8_counterexample_hand_shrinks :
    emptyDeckRoom.deck = [] ∧
    assocLookup emptyDeckRoom.hands "A" = some [3, 4] ∧ 3 ∈ [3, 4] ∧
    (discardCore emptyDeckRoom "A" 3 0).2 = [] ∧
    ¬ (((assocLookup (discardCore emptyDeckRoom "A" 3 0).1.hands "A").getD []).length
        = [3, 4].length) := by
  decide

/-- C8 (amended): with the room live, the card in the hand and the deck
empty, discard-card leaves the hand shortened — the card's instances are
removed and never replaced — and sends nothing. -/
theorem C8_empty_deck_discard (room : Room) (playerName : PlayerName) (card : Card)
    (conn : ConnId) (hand : List Card)
    (hh : assocLookup room.hands playerName = some hand)
    (hc : card ∈ hand) (hd : room.deck = []) :
    discardCore room playerName card conn =
      ({ room with
          hands := assocSet room.hands playerName (hand.filter (fun c => c != card)) },
       ([] : List Out)) := by
  simp only [discardCore, hh, hd, if_pos hc]

/-- C8 witness: the amended behaviour at a concrete room. -/
theorem C8_empty_deck_discard_witness :
    discardCore emptyDeckRoom "A" 3 0 =
      ({ emptyDeckRoom with
          hands := assocSet emptyDeckRoom.hands "A" ([3, 4].filter (fun c => c != 3)) },
       ([] : List Out)) :=
  C8_empty_deck_discard emptyDeckRoom "A" 3 0 [3, 4] (by decide) (by decide) (by decide)

/-- C9: every event naming a room id with no room — submit-title, vote,
discard-card, request-hand, ready-for-next-turn, and
`removePlayerFromRoom` itself — leaves the server state untouched and
emits nothing. -/
theorem C9_unknown_room_noop (st : ServerState) (roomId : RoomId)
    (playerName targetName : PlayerName) (title : String)
    (usedCards : Option (List Card)) (card : Card) (conn : ConnId)
    (resolve : PlayerName → Option ConnId)
    (h : assocLookup st.rooms roomId = none) :
    submitTitleHandler st roomId playerName title usedCards = (st, []) ∧
    voteHandler st roomId playerName targetName = (st, []) ∧
    discardHandler st roomId playerName card conn = (st, []) ∧
    requestHandHandler st roomId playerName conn = (st, []) ∧
    readyHandler st roomId playerName resolve = (st, []) ∧
    removePlayerHandler st roomId playerName = st := by
  refine ⟨?_, ?_, ?_, ?_, ?_, ?_⟩ <;>
    simp [submitTitleHandler, voteHandler, discardHandler, requestHandHandler,
      readyHandler, removePlayerHandler, h]

/-- C9 witness: on the empty initial state every unknown-room event is a
silent no-op. -/
theorem C9_unknown_room_noop_witness :
    submitTitleHandler initialState "R" "A" "T" (some [1, 2]) = (initialState, []) ∧
    voteHandler initialState "R" "A" "B" = (initialState, []) ∧
    discardHandler initialState "R" "A" 1 0 = (initialState, []) ∧
    requestHandHandler initialState "R" "A" 0 = (initialState, []) ∧
    readyHandler initialState "R" "A" (fun _ => none) = (initialState, []) ∧
    removePlayerHandler initialState "R" "A" = initialState :=
  C9_unknown_room_noop initialState "R" "A" "B" "T" (some [1, 2]) 1 0
    (fun _ => none) rfl

/-- C10: request-hand never changes the server state, replies with the
recorded hand exactly when the room exists and a hand is recorded for the
player, and emits nothing otherwise. -/
theorem C10_request_hand_reads_only (st : ServerState) (roomId : RoomId)
    (playerName : PlayerName) (conn : ConnId) :
    (requestHandHandler st roomId playerName conn).1 = st ∧
    (∀ room hand, assocLookup st.rooms roomId = some room →
        assocLookup room.hands playerName = some hand →
        (requestHandHandler st roomId playerName conn).2
          = [Out.send conn "deal-hand" (Payload.hand hand)]) ∧
    (∀ room, assocLookup st.rooms roomId = some room →
        assocLookup room.hands playerName = none →
        (requestHandHandler st roomId playerName conn).2 = []) ∧
    (assocLookup st.rooms roomId = none →
        (requestHandHandler st roomId playerName conn).2 = []) := by
  refine ⟨?_, ?_, ?_, ?_⟩
  · cases h : assocLookup st.rooms roomId <;>
      simp [requestHandHandler, h]
  · intro room hand h1 h2
    simp [requestHandHandler, requestHandCore, h1, h2]
  · intro room h1 h2
    simp [requestHandHandler, requestHandCore, h1, h2]
  · intro h
    simp [requestHandHandler, h]

/-- C10 witness: request-hand on a live room with a recorded hand replies
with exactly that hand and leaves the state alone. -/
theorem C10_request_hand_reads_only_witness :
    (requestHandHandler { rooms := [("R", dupHandRoom)] } "R" "A" 3).1
      = { rooms := [("R", dupHandRoom)] } ∧
    (requestHandHandler { rooms := [("R", dupHandRoom)] } "R" "A" 3).2
      = [Out.send 3 "deal-hand" (Payload.hand [5, 5, 9])] :=
  ⟨(C10_request_hand_reads_only { rooms := [("R", dupHandRoom)] } "R" "A" 3).1,
   (C10_request_hand_reads_only { rooms := [("R", dupHandRoom)] } "R" "A" 3).2.1
     dupHandRoom [5, 5, 9] (by decide) (by decide)⟩

/-- C3: when the advancement block runs, it leaves the votes map, the
voted and ready sets and the submissions list empty, and bumps the turn
counter by exactly one. -/
theorem C3_advance_resets_and_increments (roomId : RoomId) (room : Room)
    (playerName : PlayerName) (resolve : PlayerName → Option ConnId)
    (h : readyAdvances room playerName = true) :
    (readyCore roomId room playerName resolve).1.votes = [] ∧
    (readyCore roomId room playerName resolve).1.votedPlayers = [] ∧
    (readyCore roomId room playerName resolve).1.readyPlayers = [] ∧
    (readyCore roomId room playerName resolve).1.submissions = [] ∧
    (readyCore roomId room playerName resolve).1.turn = room.turn + 1 := by
  unfold readyAdvances at h
  rw [Bool.and_eq_true] at h
  obtain ⟨h1, h2⟩ := h
  rw [Bool.not_eq_true', beq_eq_false_iff_ne, readyPush_turn] at h2
  simp [readyCore, h1, h2, readyPush_turn]

/-- C3 witness: a one-player room at its barrier advances from turn 1 to
turn 2 with all ephemeral state cleared. -/
theorem C3_advance_resets_and_increments_witness :
    (readyCore "R" barrierRoom "A" (fun _ => none)).1.votes = [] ∧
    (readyCore "R" barrierRoom "A" (fun _ => none)).1.votedPlayers = [] ∧
    (readyCore "R" barrierRoom "A" (fun _ => none)).1.readyPlayers = [] ∧
    (readyCore "R" barrierRoom "A" (fun _ => none)).1.submissions = [] ∧
    (readyCore "R" barrierRoom "A" (fun _ => none)).1.turn = barrierRoom.turn + 1 :=
  C3_advance_resets_and_increments "R" barrierRoom "A" (fun _ => none) (by decide)

/-! Turn-counter lemmas feeding the once-per-turn argument. -/

theorem submitTitleCore_turn (roomId : RoomId) (room : Room) (p : PlayerName)
    (t : String) (uc : Option (List Card)) :
    (submitTitleCore roomId room p t uc).1.turn = room.turn := by
  unfold submitTitleCore
  split <;> rfl

theorem discardCore_turn (room : Room) (p : PlayerName) (card : Card) (conn : ConnId) :
    (discardCore room p card conn).1.turn = room.turn := by
  unfold discardCore
  cases h : assocLookup room.hands p with
  | none => rfl
  | some hand =>
    dsimp only
    by_cases hc : card ∈ hand
    · simp only [if_pos hc]
      cases room.deck <;> rfl
    · simp only [if_neg hc]

theorem readyCore_turn_ge (roomId : RoomId) (room : Room) (p : PlayerName)
    (resolve : PlayerName → Option ConnId) :
    room.turn ≤ (readyCore roomId room p resolve).1.turn := by
  rw [readyCore_turn]
  split <;> omega

/-- The turn of a room slot after an `assocSet`. -/
theorem turnAt_set (rooms : List (RoomId × Room)) (k : RoomId) (room' : Room)
    (R : RoomId) :
    turnAt { rooms := assocSet rooms k room' } R =
      if k = R then room'.turn else turnAt { rooms := rooms } R := by
  by_cases h : k = R
  · subst h
    simp [turnAt, assocLookup_assocSet_self]
  · simp [turnAt, h, assocLookup_assocSet_ne rooms k room' R h]

theorem turnAt_update_le (st : ServerState) (roomId : RoomId) (room room' : Room)
    (R : RoomId)
    (hlook : assocLookup st.rooms roomId = some room)
    (hturn : room.turn ≤ room'.turn) :
    turnAt st R ≤ turnAt { rooms := assocSet st.rooms roomId room' } R := by
  rw [turnAt_set]
  by_cases h : roomId = R
  · subst h
    simp [turnAt, hlook]
    omega
  · simp [h]

theorem turnAt_create_le (st : ServerState) (roomId : RoomId) (room' : Room)
    (R : RoomId) (hlook : assocLookup st.rooms roomId = none) :
    turnAt st R ≤ turnAt { rooms := assocSet st.rooms roomId room' } R := by
  rw [turnAt_set]
  by_cases h : roomId = R
  · subst h
    simp [turnAt, hlook]
  · simp [h]

/-- No event ever decreases a room's turn counter. -/
theorem turnAt_step_mono (st : ServerState) (e : Event) (R : RoomId) :
    turnAt st R ≤ turnAt (step st e).1 R := by
  cases e with
  | join roomId p conn shuffled =>
    cases hlook : assocLookup st.rooms roomId with
    | none =>
      simp only [step, joinRoomHandler, hlook]
      exact turnAt_create_le st roomId _ R hlook
    | some room =>
      simp only [step, joinRoomHandler, hlook]
      exact turnAt_update_le st roomId room _ R hlook (by rfl)
  | submitTitle roomId p t uc =>
    cases hlook : assocLookup st.rooms roomId with
    | none => simp [step, submitTitleHandler, hlook]
    | some room =>
      simp only [step, submitTitleHandler, hlook]
      exact turnAt_update_le st roomId room _ R hlook
        (le_of_eq (submitTitleCore_turn roomId room p t uc).symm)
  | vote roomId p t =>
    cases hlook : assocLookup st.rooms roomId with
    | none => simp [step, voteHandler, hlook]
    | some room =>
      simp only [step, voteHandler, hlook]
      exact turnAt_update_le st roomId room _ R hlook (by rfl)
  | discard roomId p card conn =>
    cases hlook : assocLookup st.rooms roomId with
    | none => simp [step, discardHandler, hlook]
    | some room =>
      simp only [step, discardHandler, hlook]
      exact turnAt_update_le st roomId room _ R hlook
        (le_of_eq (discardCore_turn room p card conn).symm)
  | requestHand roomId p conn =>
    cases hlook : assocLookup st.rooms roomId with
    | none => simp [step, requestHandHandler, hlook]
    | some room => simp [step, requestHandHandler, hlook]
  | ready roomId p resolve =>
    cases hlook : assocLookup st.rooms roomId with
    | none => simp [step, readyHandler, hlook]
    | some room =>
      simp only [step, readyHandler, hlook]
      exact turnAt_update_le st roomId room _ R hlook (readyCore_turn_ge roomId room p resolve)
  | disconnect data =>
    cases data with
    | none => simp [step, disconnectHandler]
    | some pair =>
      obtain ⟨roomId, p⟩ := pair
      cases hlook : assocLookup st.rooms roomId with
      | none => simp [step, disconnectHandler, removePlayerHandler, hlook]
      | some room =>
        simp only [step, disconnectHandler, removePlayerHandler, hlook]
        exact turnAt_update_le st roomId room _ R hlook (by rfl)

/-- An event that runs the advancement block bumps the room's turn counter
by exactly one. -/
theorem turnAt_step_advance (st : ServerState) (e : Event) (R : RoomId)
    (h : advancesAt st R e = true) :
    turnAt (step st e).1 R = turnAt st R + 1 := by
  cases e with
  | ready roomId p resolve =>
    unfold advancesAt at h
    rw [Bool.and_eq_true] at h
    obtain ⟨hR, hrest⟩ := h
    have hR' : roomId = R := by simpa using hR
    subst hR'
    cases hlook : assocLookup st.rooms roomId with
    | none => rw [hlook] at hrest; exact absurd hrest (by simp)
    | some room =>
      rw [hlook] at hrest
      simp only [step, readyHandler, hlook]
      rw [turnAt_set, if_pos rfl, readyCore_turn, if_pos hrest]
      simp [turnAt, hlook]
  | join roomId p conn shuffled => exact absurd h (by simp [advancesAt])
  | submitTitle roomId p t uc => exact absurd h (by simp [advancesAt])
  | vote roomId p t => exact absurd h (by simp [advancesAt])
  | discard roomId p card conn => exact absurd h (by simp [advancesAt])
  | requestHand roomId p conn => exact absurd h (by simp [advancesAt])
  | disconnect data => exact absurd h (by simp [advancesAt])

/-- Once the room's turn has passed `T`, no later event advances at `T`. -/
theorem countAdvances_eq_zero (st : ServerState) (R : RoomId) (T : Nat)
    (es : List Event) (h : T < turnAt st R) :
    countAdvances st R T es = 0 := by
  induction es generalizing st with
  | nil => rfl
  | cons e rest ih =>
    unfold countAdvances
    have hneg : ¬(advancesAt st R e = true ∧ turnAt st R = T) := by
      rintro ⟨_, hT⟩
      omega
    rw [if_neg hneg, ih (step st e).1 (lt_of_lt_of_le h (turnAt_step_mono st e R))]

/-- C2: along any event trace, the advancement block of a given room runs
at most once while that room's turn counter equals a given value `T` —
however many ready-for-next-turn events arrive and however often the
barrier comparison is re-evaluated, the `turnProcessed` guard and the
turn bump keep the advance idempotent per turn. -/
theorem C2_advance_at_most_once_per_turn (st : ServerState) (R : RoomId)
    (T : Nat) (es : List Event) :
    countAdvances st R T es ≤ 1 := by
  induction es generalizing st with
  | nil => exact Nat.zero_le 1
  | cons e rest ih =>
    unfold countAdvances
    by_cases hc : advancesAt st R e = true ∧ turnAt st R = T
    · rw [if_pos hc]
      have hbump : turnAt (step st e).1 R = T + 1 := by
        rw [turnAt_step_advance st e R hc.1, hc.2]
      rw [countAdvances_eq_zero _ _ _ _ (by omega)]
    · rw [if_neg hc]
      simpa using ih (step st e).1

/-! Card-conservation lemmas: no operation ever adds cards to a room. -/

theorem handsCards_cons (e : PlayerName × List Card) (rest : List (PlayerName × List Card)) :
    handsCards (e :: rest) = (e.2 : Multiset Card) + handsCards rest := by
  simp [handsCards]

theorem handsCards_append (m₁ m₂ : List (PlayerName × List Card)) :
    handsCards (m₁ ++ m₂) = handsCards m₁ + handsCards m₂ := by
  simp [handsCards]

theorem coe_filter_le (l : List Card) (p : Card → Bool) :
    ((l.filter p : List Card) : Multiset Card) ≤ (l : Multiset Card) :=
  Multiset.coe_le.mpr (l.filter_sublist).subperm

theorem handsCards_erase_le (m : List (PlayerName × List Card)) (k : String) :
    handsCards (assocErase m k) ≤ handsCards m := by
  induction m with
  | nil => exact le_refl _
  | cons e rest ih =>
    rw [assocErase, List.filter_cons]
    by_cases hp : (e.1 != k) = true
    · rw [if_pos hp, handsCards_cons, handsCards_cons]
      refine add_le_add_left ?_ _
      simpa [assocErase] using ih
    · rw [if_neg hp, handsCards_cons]
      refine le_trans ?_ (Multiset.le_add_left _ _)
      simpa [assocErase] using ih

theorem handsCards_assocSet (m : List (PlayerName × List Card)) (k : String)
    (v : List Card) :
    handsCards (assocSet m k v) = handsCards (assocErase m k) + (v : Multiset Card) := by
  rw [assocSet, handsCards_append, handsCards_cons]
  simp [handsCards]

theorem handsCards_erase_add_lookup_le (m : List (PlayerName × List Card)) (k : String) :
    handsCards (assocErase m k) + (((assocLookup m k).getD [] : List Card) : Multiset Card)
      ≤ handsCards m := by
  induction m with
  | nil => simp [assocErase, assocLookup, handsCards]
  | cons e rest ih =>
    obtain ⟨k', v⟩ := e
    by_cases h : k' = k
    · subst h
      rw [assocLookup, if_pos rfl]
      have he : assocErase ((k', v) :: rest) k' = assocErase rest k' := by
        simp [assocErase, List.filter_cons]
      rw [he, handsCards_cons]
      calc handsCards (assocErase rest k') + ((v : List Card) : Multiset Card)
          ≤ handsCards rest + (v : Multiset Card) :=
            add_le_add_right (handsCards_erase_le rest k') _
        _ = (v : Multiset Card) + handsCards rest := add_comm _ _
    · have he : assocErase ((k', v) :: rest) k = (k', v) :: assocErase rest k := by
        simp [assocErase, List.filter_cons, h]
      rw [assocLookup, if_neg h, he, handsCards_cons, handsCards_cons, add_assoc]
      exact add_le_add_left ih _

theorem handsCards_set_draw_le (m : List (PlayerName × List Card)) (k : String)
    (v drawn restDeck : List Card)
    (hv : (v : Multiset Card) ≤ (((assocLookup m k).getD [] : List Card) : Multiset Card)) :
    handsCards (assocSet m k (v ++ drawn)) + (restDeck : Multiset Card)
      ≤ handsCards m + ((drawn ++ restDeck : List Card) : Multiset Card) := by
  have h1 : handsCards (assocErase m k) + (v : Multiset Card) ≤ handsCards m :=
    le_trans (add_le_add_left hv _) (handsCards_erase_add_lookup_le m k)
  rw [handsCards_assocSet, ← Multiset.coe_add v drawn, ← Multiset.coe_add drawn restDeck]
  calc handsCards (assocErase m k) + ((v : Multiset Card) + (drawn : Multiset Card))
        + (restDeck : Multiset Card)
      = (handsCards (assocErase m k) + (v : Multiset Card))
        + ((drawn : Multiset Card) + (restDeck : Multiset Card)) := by abel
    _ ≤ handsCards m + ((drawn : Multiset Card) + (restDeck : Multiset Card)) :=
        add_le_add_right h1 _

theorem roomCards_removePlayer_le (room : Room) (p : PlayerName) :
    roomCards (removePlayerCore room p) ≤ roomCards room := by
  simp only [roomCards, removePlayerCore]
  exact add_le_add_right (handsCards_erase_le _ _) _

theorem roomCards_join_le (roomId : RoomId) (room : Room) (p : PlayerName)
    (conn : ConnId) :
    roomCards (joinRoomCore roomId room p conn).1 ≤ roomCards room := by
  simp only [joinRoomCore, removePlayerCore, drawCards, roomCards]
  rw [handsCards_assocSet, assocErase_assocErase, add_assoc,
    Multiset.coe_add (room.deck.take 7) (room.deck.drop 7), List.take_append_drop]
  exact add_le_add_right (handsCards_erase_le _ _) _

theorem roomCards_submit_eq (roomId : RoomId) (room : Room) (p : PlayerName)
    (t : String) (uc : Option (List Card)) :
    roomCards (submitTitleCore roomId room p t uc).1 = roomCards room := by
  unfold submitTitleCore
  split <;> rfl

theorem roomCards_vote_eq (roomId : RoomId) (room : Room) (p t : PlayerName) :
    roomCards (voteCore roomId room p t).1 = roomCards room := rfl

theorem roomCards_discard_le (room : Room) (p : PlayerName) (card : Card)
    (conn : ConnId) :
    roomCards (discardCore room p card conn).1 ≤ roomCards room := by
  unfold discardCore
  cases h : assocLookup room.hands p with
  | none => exact le_refl _
  | some hand =>
    dsimp only
    by_cases hc : card ∈ hand
    · simp only [if_pos hc]
      cases hd : room.deck with
      | nil =>
        simp only [roomCards, handsCards_assocSet, hd]
        refine add_le_add_right ?_ _
        have hv : ((hand.filter (fun c => c != card) : List Card) : Multiset Card)
            ≤ (hand : Multiset Card) := coe_filter_le hand _
        refine le_trans (add_le_add_left hv _) ?_
        simpa [h] using handsCards_erase_add_lookup_le room.hands p
      | cons d ds =>
        simp only [roomCards, assocSet_assocSet]
        have := handsCards_set_draw_le room.hands p
          (hand.filter (fun c => c != card)) [d] ds (by simpa [h] using coe_filter_le hand _)
        simpa [hd] using this
    · simp only [if_neg hc]
      exact le_refl _

theorem replenishLoop_cards_le (resolve : PlayerName → Option ConnId)
    (subs : List Submission) :
    ∀ hands deck,
      handsCards (replenishLoop resolve subs hands deck).1
          + (((replenishLoop resolve subs hands deck).2.1 : List Card) : Multiset Card)
        ≤ handsCards hands + (deck : Multiset Card) := by
  induction subs with
  | nil => intro hands deck; exact le_refl _
  | cons sub rest ih =>
    intro hands deck
    simp only [replenishLoop, drawCards]
    refine le_trans (ih _ _) ?_
    have hv : ((((assocLookup hands sub.playerName).getD []).filter
          (fun c => !(sub.usedCards.contains c)) : List Card) : Multiset Card)
        ≤ (((assocLookup hands sub.playerName).getD [] : List Card) : Multiset Card) :=
      coe_filter_le _ _
    have := handsCards_set_draw_le hands sub.playerName
      (((assocLookup hands sub.playerName).getD []).filter
        (fun c => !(sub.usedCards.contains c)))
      (deck.take (7 - (((assocLookup hands sub.playerName).getD []).filter
        (fun c => !(sub.usedCards.contains c))).length))
      (deck.drop (7 - (((assocLookup hands sub.playerName).getD []).filter
        (fun c => !(sub.usedCards.contains c))).length))
      hv
    simpa [List.take_append_drop] using this

theorem roomCards_readyPush (room : Room) (p : PlayerName) :
    roomCards (readyPush room p) = roomCards room := by
  unfold readyPush
  split <;> rfl

theorem roomCards_ready_le (roomId : RoomId) (room : Room) (p : PlayerName)
    (resolve : PlayerName → Option ConnId) :
    roomCards (readyCore roomId room p resolve).1 ≤ roomCards room := by
  unfold readyCore
  cases hlen : ((readyPush room p).readyPlayers.length == (readyPush room p).players.length) with
  | false =>
    simp only [hlen, Bool.false_eq_true, if_false]
    exact le_of_eq (roomCards_readyPush room p)
  | true =>
    simp only [hlen, if_true]
    cases hguard : ((readyPush room p).turnProcessed == some (readyPush room p).turn) with
    | true =>
      simp only [hguard, if_true]
      exact le_of_eq (roomCards_readyPush room p)
    | false =>
      simp only [hguard, Bool.false_eq_true, if_false]
      refine le_trans ?_ (le_of_eq (roomCards_readyPush room p))
      simp only [roomCards]
      exact replenishLoop_cards_le resolve (readyPush room p).submissions
        (readyPush room p).hands (readyPush room p).deck

theorem serverInv_set (catalog : List Card) (st : ServerState) (roomId : RoomId)
    (room' : Room) (hst : serverInv catalog st)
    (h' : roomCards room' ≤ (catalog : Multiset Card)) :
    serverInv catalog { rooms := assocSet st.rooms roomId room' } := by
  intro R r hR
  by_cases h : roomId = R
  · subst h
    rw [assocLookup_assocSet_self] at hR
    cases hR
    exact h'
  · rw [assocLookup_assocSet_ne st.rooms roomId room' R h] at hR
    exact hst R r hR

/-- One event preserves the card bound, given a valid shuffle oracle. -/
theorem serverInv_step (catalog : List Card) (st : ServerState) (e : Event)
    (hok : eventOk catalog e) (hst : serverInv catalog st) :
    serverInv catalog (step st e).1 := by
  cases e with
  | join roomId p conn shuffled =>
    have hperm : shuffled.Perm catalog := hok
    cases hlook : assocLookup st.rooms roomId with
    | none =>
      simp only [step, joinRoomHandler, hlook]
      refine serverInv_set catalog st roomId _ hst ?_
      refine le_trans (roomCards_join_le roomId (createNewRoom shuffled) p conn) ?_
      have hc : roomCards (createNewRoom shuffled) = (shuffled : Multiset Card) := by
        simp [roomCards, createNewRoom, handsCards]
      rw [hc]
      exact le_of_eq (Multiset.coe_eq_coe.mpr hperm)
    | some room =>
      simp only [step, joinRoomHandler, hlook]
      exact serverInv_set catalog st roomId _ hst
        (le_trans (roomCards_join_le roomId room p conn) (hst roomId room hlook))
  | submitTitle roomId p t uc =>
    cases hlook : assocLookup st.rooms roomId with
    | none => simpa [step, submitTitleHandler, hlook] using hst
    | some room =>
      simp only [step, submitTitleHandler, hlook]
      exact serverInv_set catalog st roomId _ hst
        (le_trans (le_of_eq (roomCards_submit_eq roomId room p t uc))
          (hst roomId room hlook))
  | vote roomId p t =>
    cases hlook : assocLookup st.rooms roomId with
    | none => simpa [step, voteHandler, hlook] using hst
    | some room =>
      simp only [step, voteHandler, hlook]
      exact serverInv_set catalog st roomId _ hst
        (le_trans (le_of_eq (roomCards_vote_eq roomId room p t)) (hst roomId room hlook))
  | discard roomId p card conn =>
    cases hlook : assocLookup st.rooms roomId with
    | none => simpa [step, discardHandler, hlook] using hst
    | some room =>
      simp only [step, discardHandler, hlook]
      exact serverInv_set catalog st roomId _ hst
        (le_trans (roomCards_discard_le room p card conn) (hst roomId room hlook))
  | requestHand roomId p conn =>
    cases hlook : assocLookup st.rooms roomId with
    | none => simpa [step, requestHandHandler, hlook] using hst
    | some room => simpa [step, requestHandHandler, hlook] using hst
  | ready roomId p resolve =>
    cases hlook : assocLookup st.rooms roomId with
    | none => simpa [step, readyHandler, hlook] using hst
    | some room =>
      simp only [step, readyHandler, hlook]
      exact serverInv_set catalog st roomId _ hst
        (le_trans (roomCards_ready_le roomId room p resolve) (hst roomId room hlook))
  | disconnect data =>
    cases data with
    | none => simpa [step, disconnectHandler] using hst
    | some pair =>
      obtain ⟨roomId, p⟩ := pair
      cases hlook : assocLookup st.rooms roomId with
      | none => simpa [step, disconnectHandler, removePlayerHandler, hlook] using hst
      | some room =>
        simp only [step, disconnectHandler, removePlayerHandler, hlook]
        exact serverInv_set catalog st roomId _ hst
          (le_trans (roomCards_removePlayer_le room p) (hst roomId room hlook))

theorem runEvents_inv (catalog : List Card) (es : List Event) :
    ∀ st : ServerState, serverInv catalog st → (∀ e ∈ es, eventOk catalog e) →
      serverInv catalog (runEvents st es) := by
  induction es with
  | nil => intro st hst _; exact hst
  | cons e rest ih =>
    intro st hst hok
    rw [runEvents]
    exact ih _ (serverInv_step catalog st e (hok e (List.mem_cons_self e rest)) hst)
      (fun e' he' => hok e' (List.mem_cons_of_mem e he'))

/-- C6 counterexample: the size equality fails. A player joining the same
room twice has the first hand deleted by `removePlayerFromRoom` without
its 7 cards returning to the deck, so with a 20-card catalog the room
retains only 13 cards although no card was ever discarded due to deck
exhaustion (both draws were fully honoured and no discard or advancement
happened). -/
theorem C6_counterexample_rejoin_drops_cards :
    (∀ e ∈ rejoinEvents, eventOk catalog20 e) ∧
    assocLookup (runEvents initialState rejoinEvents).rooms "R" = some roomAfterRejoin ∧
    traceExhaustionLoss initialState rejoinEvents = 0 ∧
    Multiset.card (roomCards roomAfterRejoin) = 13 ∧
    catalog20.length = 20 ∧
    Multiset.card (roomCards roomAfterRejoin)
      ≠ catalog20.length - traceExhaustionLoss initialState rejoinEvents := by
  refine ⟨?_, by decide, by decide, by decide, by decide, by decide⟩
  intro e he
  simp only [rejoinEvents, List.mem_cons, List.mem_singleton] at he
  rcases he with rfl | rfl | h
  · exact List.Perm.refl _
  · exact List.Perm.refl _
  · cases h

/-- C6 (amended): after any sequence of operations from the empty server
(with every room-creating shuffle a permutation of the catalog), the
multiset union of each live room's hands and deck is a sub-multiset of
the catalog — no duplicates appear beyond what the catalog contained.
The size, however, need not equal catalog size minus
exhaustion-discards: re-joins and leaves delete whole hands without the
deck being exhausted. -/
theorem C6_cards_sub_multiset_of_catalog (catalog : List Card) (es : List Event)
    (h : ∀ e ∈ es, eventOk catalog e) :
    ∀ R room, assocLookup (runEvents initialState es).rooms R = some room →
      roomCards room ≤ (catalog : Multiset Card) := by
  have hinit : serverInv catalog initialState := by
    intro R room hR
    simp [initialState, assocLookup] at hR
  exact runEvents_inv catalog es initialState hinit h

/-- C6 witness: one join from a 3-card catalog leaves the room's cards
within the catalog multiset. -/
theorem C6_cards_sub_multiset_of_catalog_witness :
    roomCards
      { players := ["A"], votes := [], votedPlayers := [], readyPlayers := [],
        turn := 1, submissions := [], deck := [],
        hands := [("A", [1, 2, 3])], turnProcessed := none }
      ≤ (([1, 2, 3] : List Card) : Multiset Card) :=
  C6_cards_sub_multiset_of_catalog [1, 2, 3] [Event.join "R" "A" 0 [1, 2, 3]]
    (fun e he => by
      rw [List.mem_singleton] at he
      subst he
      exact List.Perm.refl _)
    "R" _ (by decide)

end TitleGame
